import Mathlib

/-!
# Verification of the inventory-and-order management core

Shallow embedding of `src/firebase_utils.py` (class `FirebaseManager`) of the
repository `GIUSEPPESAN21/Gesti-n-de-Inventarios-`, together with theorems
settling the specification claims about it.

Modelling conventions:
* Firestore collections (`inventory`, `orders`) are association lists from the
  document id (a string) to the document's fields.
* An inventory document carries `name` and an optional `quantity` field; the
  code reads it with `to_dict().get('quantity', 0)`, which we render as
  `Option.getD 0`.
* An order document carries `title`, `price`, an optional `ingredients` list
  (the code reads `order_data.get('ingredients', [])`) and `status`.
  `timestamp` and `tipo` fields are bookkeeping the claims never touch and are
  omitted.
* A Firestore transaction buffers `transaction.update` calls and commits them
  atomically at the end; an exception aborts the transaction with nothing
  committed, and `complete_order`'s `except` clause then returns
  `(False, "Error en la transacción: …")`.  We model this by applying the
  buffered updates only on the success path, and by giving `completeOrder` an
  explicit `Option String` parameter carrying the storage failure, `none`
  meaning the transaction ran to its normal end.
* `document(id).delete()` in Firestore succeeds silently when the document is
  absent, so `cancel_order` and `delete_inventory_item` are total functions on
  the state.
-/

namespace Inventario

/-- An `inventory` collection document: fields `name` and (optional)
`quantity`, as read by `_complete_order_atomic` via `get('quantity', 0)`. -/
structure InvDoc where
  name : String
  quantity : Option Int
  deriving Repr, DecidableEq

/-- One entry of an order's `ingredients` list: the dict
`{'name': …, 'quantity': …}` built by the order form in `app.py`. -/
structure Ing where
  name : String
  quantity : Int
  deriving Repr, DecidableEq

/-- An `orders` collection document: `{'title', 'price', 'ingredients',
'status'}` as created by `app.py` (`ingredients` optional because
`_complete_order_atomic` defaults it to `[]`). -/
structure OrderDoc where
  title : String
  price : Int
  ingredients : Option (List Ing)
  status : String
  deriving Repr, DecidableEq

/-- The whole Firestore state touched by the code: the `inventory` and
`orders` collections, keyed by document id. -/
structure St where
  inventory : List (String × InvDoc)
  orders : List (String × OrderDoc)
  deriving Repr, DecidableEq

/-- Point read of a document by id (Firestore `collection.document(k).get()`). -/
def findDoc {α : Type} : List (String × α) → String → Option α
  | [], _ => none
  | p :: rest, k => if p.1 = k then some p.2 else findDoc rest k

/-- Write a document at an id, replacing an existing one
(`doc_ref.set(data, merge=True)`; the saved dict always carries both fields
the model keeps, so the merge amounts to replacement). -/
def setDoc {α : Type} : List (String × α) → String → α → List (String × α)
  | [], k, v => [(k, v)]
  | p :: rest, k, v => if p.1 = k then (k, v) :: rest else p :: setDoc rest k v

/-- Delete a document by id (`document(k).delete()`, silent when absent). -/
def removeDoc {α : Type} : List (String × α) → String → List (String × α)
  | [], _ => []
  | p :: rest, k => if p.1 = k then removeDoc rest k else p :: removeDoc rest k

/-- `save_inventory_item(data, custom_id)`: writes `data` at the
caller-supplied `custom_id` (timestamp bookkeeping omitted). -/
def saveInventoryItem (s : St) (data : InvDoc) (customId : String) : St :=
  { s with inventory := setDoc s.inventory customId data }

/-- `delete_inventory_item(doc_id)`. -/
def deleteInventoryItem (s : St) (docId : String) : St :=
  { s with inventory := removeDoc s.inventory docId }

/-- `create_order(order_data)`: `collection('orders').add(order_data)` after
stamping a timestamp — Firestore `add` stores the dict unchanged under a
fresh id, with no validation of any field. -/
def createOrder (s : St) (orderData : OrderDoc) (newId : String) : St :=
  { s with orders := (newId, orderData) :: s.orders }

/-- `cancel_order(order_id)`: `collection('orders').document(order_id).delete()`,
unconditionally, whatever the order's status, silently when absent. -/
def cancelOrder (s : St) (orderId : String) : St :=
  { s with orders := removeDoc s.orders orderId }

/-- `item_snapshot.to_dict().get('quantity', 0)`. -/
def getQuantity (d : InvDoc) : Int :=
  d.quantity.getD 0

/-- The message `f"Ingrediente '{name}' no encontrado en el inventario."`. -/
def notFoundIngMsg (name : String) : String :=
  "Ingrediente \x27" ++ name ++ "\x27 no encontrado en el inventario."

/-- The message `f"Stock insuficiente para '{name}'. Necesitas {required}, tienes {available}."`. -/
def insufficientMsg (name : String) (required available : Int) : String :=
  "Stock insuficiente para \x27" ++ name ++ "\x27. Necesitas " ++
    toString required ++ ", tienes " ++ toString available ++ "."

/-- The message `f"Pedido '{title}' completado con éxito."`. -/
def successMsg (title : String) : String :=
  "Pedido \x27" ++ title ++ "\x27 completado con éxito."

/-- The `for ing in order_data.get('ingredients', [])` loop of
`_complete_order_atomic`: resolve each ingredient name as an `inventory`
document id, fail on the first missing item or the first insufficient stock,
otherwise collect the buffered `inventory_updates`
`(item id, new quantity)` in ingredient order.  All reads observe the
pre-transaction snapshot `inv`, since every read precedes every buffered
write. -/
def computeUpdates (inv : List (String × InvDoc)) : List Ing → Except String (List (String × Int))
  | [] => Except.ok []
  | ing :: rest =>
    match findDoc inv ing.name with
    | none => Except.error (notFoundIngMsg ing.name)
    | some doc =>
      let currentQuantity := getQuantity doc
      if currentQuantity < ing.quantity then
        Except.error (insufficientMsg ing.name ing.quantity currentQuantity)
      else
        match computeUpdates inv rest with
        | Except.error m => Except.error m
        | Except.ok updates =>
          Except.ok ((ing.name, currentQuantity - ing.quantity) :: updates)

/-- One buffered `transaction.update(item_ref, {'quantity': q})`: overwrite
the `quantity` field of the document at id `k`, keeping its other fields. -/
def setQuantity : List (String × InvDoc) → String → Int → List (String × InvDoc)
  | [], _, _ => []
  | p :: rest, k, q =>
    if p.1 = k then (p.1, { p.2 with quantity := some q }) :: rest
    else p :: setQuantity rest k q

/-- The `for update in inventory_updates: transaction.update(...)` loop,
applied in order at commit time (so for duplicate ids the last write wins). -/
def applyUpdates : List (String × InvDoc) → List (String × Int) → List (String × InvDoc)
  | inv, [] => inv
  | inv, (k, q) :: rest => applyUpdates (setQuantity inv k q) rest

/-- The buffered `transaction.update(order_ref, {'status': 'completed'})`. -/
def setStatusCompleted : List (String × OrderDoc) → String → List (String × OrderDoc)
  | [], _ => []
  | p :: rest, k =>
    if p.1 = k then (p.1, { p.2 with status := "completed" }) :: rest
    else p :: setStatusCompleted rest k

/-- `_complete_order_atomic(transaction, order_id)`: fetch the order (fail if
absent), walk its ingredients building the buffered updates (fail on the
first problem with nothing committed), then commit all quantity updates plus
the status flip.  Note the function never reads the order's `status`. -/
def completeOrderAtomic (s : St) (orderId : String) : (Bool × String) × St :=
  match findDoc s.orders orderId with
  | none => ((false, "El pedido no existe."), s)
  | some orderData =>
    match computeUpdates s.inventory (orderData.ingredients.getD []) with
    | Except.error m => ((false, m), s)
    | Except.ok updates =>
      ((true, successMsg orderData.title),
       { inventory := applyUpdates s.inventory updates,
         orders := setStatusCompleted s.orders orderId })

/-- `complete_order(order_id)`: run the atomic body in a transaction.
`storageFailure = none` means the transaction ran to its normal end;
`storageFailure = some e` models an exception `e` raised mid-transaction
(storage conflict, disconnection), which aborts the transaction with nothing
committed and is caught by the `except` clause, returning
`(False, f"Error en la transacción: {e}")`. -/
def completeOrder (s : St) (orderId : String) (storageFailure : Option String) :
    (Bool × String) × St :=
  match storageFailure with
  | none => completeOrderAtomic s orderId
  | some e => ((false, "Error en la transacción: " ++ e), s)

/-- Follows the spec's words: the constant low-stock threshold
(`LOW_STOCK_THRESHOLD`, constant = 10).  No such constant exists anywhere in
the source; it is kept only to compare the code against the spec. -/
def LOW_STOCK_THRESHOLD : Int := 10

/-- Follows the spec's words: after a successful commit, the items whose new
quantity is below the threshold.  The source computes no such list. -/
def lowStockWarningsSpec (inv : List (String × InvDoc)) : List String :=
  (inv.filter (fun p => decide (getQuantity p.2 < LOW_STOCK_THRESHOLD))).map
    (fun p => p.2.name)

/-- Follows the spec's words: name normalization for `upsertByName`
(case-fold, trim).  The source performs no normalization; kept only to
compare the code against the spec.  ASCII case-fold over the character
list (executable in the kernel, unlike `String.toLower`). -/
def charLowerSpec (c : Char) : Char :=
  if c.toNat < 65 ∨ 90 < c.toNat then c else Char.ofNat (c.toNat + 32)

/-- Follows the spec's words: trim spaces at both ends of a character list. -/
def trimCharsSpec (l : List Char) : List Char :=
  ((l.dropWhile (fun c => c == ' ')).reverse.dropWhile (fun c => c == ' ')).reverse

/-- Follows the spec's words: the normalized form of an item name used by the
spec's `upsertByName` lookup (case-fold, trim). -/
def normalizeNameSpec (s : String) : String :=
  String.mk (trimCharsSpec (s.data.map charLowerSpec))

/-- `pat` occurs at the head of the text (character-list prefix test). -/
def leadsSeq : List Char → List Char → Bool
  | [], _ => true
  | _ :: _, [] => false
  | a :: as, b :: bs => a == b && leadsSeq as bs

/-- `pat` occurs somewhere inside the text (naive substring test, used to
state that an error message does not mention some item). -/
def containsSeq (pat : List Char) : List Char → Bool
  | [] => leadsSeq pat []
  | c :: rest => leadsSeq pat (c :: rest) || containsSeq pat rest

/-- The string `pat` occurs inside the string `msg`. -/
def mentions (msg pat : String) : Bool :=
  containsSeq pat.data msg.data

/-- Ingredient `ing` resolves (by name, used as the inventory document id)
to an existing item with enough stock. -/
def ingredientOk (inv : List (String × InvDoc)) (ing : Ing) : Prop :=
  ∃ d, findDoc inv ing.name = some d ∧ ing.quantity ≤ getQuantity d

/-- The quantity the transaction snapshot shows for inventory id `n`
(`get('quantity', 0)` of the document, `0` when the document is absent —
the absent case never survives the existence check). -/
def availOf (inv : List (String × InvDoc)) (n : String) : Int :=
  match findDoc inv n with
  | some d => getQuantity d
  | none => 0

/-- The buffered update `_complete_order_atomic` records for one ingredient,
read against the snapshot `inv`. -/
def updateOf (inv : List (String × InvDoc)) (ing : Ing) : String × Int :=
  (ing.name, availOf inv ing.name - ing.quantity)

/-- Every inventory quantity the state is non-negative (with the missing
`quantity` field reading as `0`, as the code reads it). -/
def InvNonneg (s : St) : Prop :=
  ∀ p ∈ s.inventory, 0 ≤ getQuantity p.2

instance (s : St) : Decidable (InvNonneg s) :=
  decidable_of_iff (∀ p ∈ s.inventory, 0 ≤ getQuantity p.2) Iff.rfl

/-- One invocation of any state-mutating operation of `FirebaseManager`,
with arbitrary caller-supplied arguments (the core validates nothing). -/
inductive Step : St → St → Prop
  | save (s : St) (data : InvDoc) (customId : String) :
      Step s (saveInventoryItem s data customId)
  | deleteItem (s : St) (docId : String) :
      Step s (deleteInventoryItem s docId)
  | create (s : St) (orderData : OrderDoc) (newId : String) :
      Step s (createOrder s orderData newId)
  | complete (s : St) (orderId : String) (storageFailure : Option String) :
      Step s (completeOrder s orderId storageFailure).2
  | cancel (s : St) (orderId : String) :
      Step s (cancelOrder s orderId)

/-- Like `Step`, but every `save_inventory_item` call carries a non-negative
quantity — the discipline the UI callers in `app.py` observe
(`st.number_input(..., min_value=0)` / `min_value=1`), which the core itself
does not enforce. -/
inductive StepChecked : St → St → Prop
  | save (s : St) (data : InvDoc) (customId : String)
      (hq : 0 ≤ getQuantity data) :
      StepChecked s (saveInventoryItem s data customId)
  | deleteItem (s : St) (docId : String) :
      StepChecked s (deleteInventoryItem s docId)
  | create (s : St) (orderData : OrderDoc) (newId : String) :
      StepChecked s (createOrder s orderData newId)
  | complete (s : St) (orderId : String) (storageFailure : Option String) :
      StepChecked s (completeOrder s orderId storageFailure).2
  | cancel (s : St) (orderId : String) :
      StepChecked s (cancelOrder s orderId)

/-! ## Association-list lemmas -/

theorem findDoc_setDoc_self {α : Type} (l : List (String × α)) (k : String) (v : α) :
    findDoc (setDoc l k v) k = some v := by
  induction l with
  | nil => simp [setDoc, findDoc]
  | cons p rest ih =>
    by_cases h : p.1 = k
    · simp [setDoc, h, findDoc]
    · simp [setDoc, h, findDoc, ih]

theorem findDoc_setDoc_other {α : Type} (l : List (String × α)) (k k' : String) (v : α)
    (h : k' ≠ k) : findDoc (setDoc l k v) k' = findDoc l k' := by
  induction l with
  | nil => simp [setDoc, findDoc, Ne.symm h]
  | cons p rest ih =>
    by_cases hp : p.1 = k
    · subst hp
      simp [setDoc, findDoc, Ne.symm h]
    · simp [setDoc, hp, findDoc, ih]

theorem findDoc_removeDoc_self {α : Type} (l : List (String × α)) (k : String) :
    findDoc (removeDoc l k) k = none := by
  induction l with
  | nil => simp [removeDoc, findDoc]
  | cons p rest ih =>
    by_cases h : p.1 = k
    · simp [removeDoc, h, ih]
    · simp [removeDoc, h, findDoc, ih]

theorem findDoc_removeDoc_other {α : Type} (l : List (String × α)) (k k' : String)
    (h : k' ≠ k) : findDoc (removeDoc l k) k' = findDoc l k' := by
  induction l with
  | nil => simp [removeDoc, findDoc]
  | cons p rest ih =>
    by_cases hp : p.1 = k
    · subst hp
      simp [removeDoc, findDoc, Ne.symm h, ih]
    · simp [removeDoc, hp, findDoc, ih]

theorem mem_removeDoc {α : Type} {l : List (String × α)} {k : String}
    {p : String × α} (h : p ∈ removeDoc l k) : p ∈ l := by
  induction l with
  | nil => simp [removeDoc] at h
  | cons q rest ih =>
    by_cases hq : q.1 = k
    · simp [removeDoc, hq] at h
      exact List.mem_cons_of_mem q (ih h)
    · simp [removeDoc, hq] at h
      rcases h with h | h
      · exact h ▸ List.mem_cons_self q rest
      · exact List.mem_cons_of_mem q (ih h)

theorem mem_setDoc {α : Type} {l : List (String × α)} {k : String} {v : α}
    {p : String × α} (h : p ∈ setDoc l k v) : p ∈ l ∨ p.2 = v := by
  induction l with
  | nil =>
    simp [setDoc] at h
    exact Or.inr (by simp [h])
  | cons q rest ih =>
    by_cases hq : q.1 = k
    · simp [setDoc, hq] at h
      rcases h with h | h
      · exact Or.inr (by simp [h])
      · exact Or.inl (List.mem_cons_of_mem q h)
    · simp [setDoc, hq] at h
      rcases h with h | h
      · exact Or.inl (h ▸ List.mem_cons_self q rest)
      · rcases ih h with h' | h'
        · exact Or.inl (List.mem_cons_of_mem q h')
        · exact Or.inr h'

theorem findDoc_setQuantity_self {inv : List (String × InvDoc)} {k : String}
    {d : InvDoc} (q : Int) (h : findDoc inv k = some d) :
    findDoc (setQuantity inv k q) k = some { d with quantity := some q } := by
  induction inv with
  | nil => simp [findDoc] at h
  | cons p rest ih =>
    by_cases hp : p.1 = k
    · simp [findDoc, hp] at h
      simp [setQuantity, hp, findDoc, h]
    · simp [findDoc, hp] at h
      simp [setQuantity, hp, findDoc, ih h]

theorem findDoc_setQuantity_other (inv : List (String × InvDoc)) (k k' : String)
    (q : Int) (h : k' ≠ k) :
    findDoc (setQuantity inv k q) k' = findDoc inv k' := by
  induction inv with
  | nil => simp [setQuantity, findDoc]
  | cons p rest ih =>
    by_cases hp : p.1 = k
    · subst hp
      simp [setQuantity, findDoc, Ne.symm h]
    · simp [setQuantity, hp, findDoc, ih]

theorem findDoc_setStatusCompleted_self {l : List (String × OrderDoc)} {k : String}
    {od : OrderDoc} (h : findDoc l k = some od) :
    findDoc (setStatusCompleted l k) k = some { od with status := "completed" } := by
  induction l with
  | nil => simp [findDoc] at h
  | cons p rest ih =>
    by_cases hp : p.1 = k
    · simp [findDoc, hp] at h
      simp [setStatusCompleted, hp, findDoc, h]
    · simp [findDoc, hp] at h
      simp [setStatusCompleted, hp, findDoc, ih h]

theorem findDoc_setStatusCompleted_other (l : List (String × OrderDoc)) (k k' : String)
    (h : k' ≠ k) : findDoc (setStatusCompleted l k) k' = findDoc l k' := by
  induction l with
  | nil => simp [setStatusCompleted, findDoc]
  | cons p rest ih =>
    by_cases hp : p.1 = k
    · subst hp
      simp [setStatusCompleted, findDoc, Ne.symm h]
    · simp [setStatusCompleted, hp, findDoc, ih]

theorem applyUpdates_findDoc_of_not_key (inv : List (String × InvDoc))
    (us : List (String × Int)) (n : String) (h : ∀ u ∈ us, u.1 ≠ n) :
    findDoc (applyUpdates inv us) n = findDoc inv n := by
  induction us generalizing inv with
  | nil => simp [applyUpdates]
  | cons u rest ih =>
    have hu : u.1 ≠ n := h u (List.mem_cons_self u rest)
    have hrest : ∀ v ∈ rest, v.1 ≠ n := fun v hv => h v (List.mem_cons_of_mem u hv)
    calc findDoc (applyUpdates inv (u :: rest)) n
        = findDoc (applyUpdates (setQuantity inv u.1 u.2) rest) n := by
          simp [applyUpdates]
      _ = findDoc (setQuantity inv u.1 u.2) n := ih _ hrest
      _ = findDoc inv n := findDoc_setQuantity_other inv u.1 n u.2 (fun h' => hu h'.symm)

/-! ## Lemmas about the completion transaction -/

theorem completeOrderAtomic_ok {s : St} {oid : String} {od : OrderDoc}
    {us : List (String × Int)} (hord : findDoc s.orders oid = some od)
    (hcu : computeUpdates s.inventory (od.ingredients.getD []) = Except.ok us) :
    completeOrderAtomic s oid = ((true, successMsg od.title),
      ⟨applyUpdates s.inventory us, setStatusCompleted s.orders oid⟩) := by
  simp [completeOrderAtomic, hord, hcu]

theorem completeOrderAtomic_err {s : St} {oid : String} {od : OrderDoc}
    {m : String} (hord : findDoc s.orders oid = some od)
    (hcu : computeUpdates s.inventory (od.ingredients.getD []) = Except.error m) :
    completeOrderAtomic s oid = ((false, m), s) := by
  simp [completeOrderAtomic, hord, hcu]

/-- When every ingredient resolves with enough stock, the checking loop
collects exactly one buffered update per ingredient, in order, each computed
against the snapshot. -/
theorem computeUpdates_ok (inv : List (String × InvDoc)) (ings : List Ing)
    (hok : ∀ ing ∈ ings, ingredientOk inv ing) :
    computeUpdates inv ings = Except.ok (ings.map (updateOf inv)) := by
  induction ings with
  | nil => simp [computeUpdates]
  | cons a rest ih =>
    obtain ⟨d, hd, hq⟩ := hok a (List.mem_cons_self a rest)
    have hnotlt : ¬ getQuantity d < a.quantity := not_lt.mpr hq
    have hrest : ∀ i ∈ rest, ingredientOk inv i :=
      fun i hi => hok i (List.mem_cons_of_mem a hi)
    simp [computeUpdates, hd, hnotlt, ih hrest, updateOf, availOf]

/-- Every buffered update the checking loop accepts carries a non-negative
new quantity: it equals the snapshot quantity minus the requirement, and the
loop already rejected the case `current < required`. -/
theorem computeUpdates_nonneg {inv : List (String × InvDoc)} {ings : List Ing}
    {us : List (String × Int)} (h : computeUpdates inv ings = Except.ok us) :
    ∀ u ∈ us, 0 ≤ u.2 := by
  induction ings generalizing us with
  | nil =>
    simp [computeUpdates] at h
    subst h
    simp
  | cons a rest ih =>
    cases hf : findDoc inv a.name with
    | none => simp [computeUpdates, hf] at h
    | some d =>
      by_cases hlt : getQuantity d < a.quantity
      · simp [computeUpdates, hf, hlt] at h
      · cases hr : computeUpdates inv rest with
        | error m => simp [computeUpdates, hf, hlt, hr] at h
        | ok vs =>
          simp [computeUpdates, hf, hlt, hr] at h
          intro u hu
          rw [← h] at hu
          rcases List.mem_cons.mp hu with hu | hu
          · rw [hu]
            simp only []
            omega
          · exact ih hr u hu

theorem setQuantity_nonneg {inv : List (String × InvDoc)} {k : String} {q : Int}
    (hinv : ∀ p ∈ inv, 0 ≤ getQuantity p.2) (hq : 0 ≤ q) :
    ∀ p ∈ setQuantity inv k q, 0 ≤ getQuantity p.2 := by
  induction inv with
  | nil => simp [setQuantity]
  | cons a rest ih =>
    intro p hp
    by_cases ha : a.1 = k
    · simp [setQuantity, ha] at hp
      rcases hp with hp | hp
      · simp [hp, getQuantity, hq]
      · exact hinv p (List.mem_cons_of_mem a hp)
    · simp [setQuantity, ha] at hp
      rcases hp with hp | hp
      · exact hp ▸ hinv a (List.mem_cons_self a rest)
      · exact ih (fun r hr => hinv r (List.mem_cons_of_mem a hr)) p hp

theorem applyUpdates_nonneg {inv : List (String × InvDoc)} {us : List (String × Int)}
    (hinv : ∀ p ∈ inv, 0 ≤ getQuantity p.2) (hus : ∀ u ∈ us, 0 ≤ u.2) :
    ∀ p ∈ applyUpdates inv us, 0 ≤ getQuantity p.2 := by
  induction us generalizing inv with
  | nil => simpa [applyUpdates] using hinv
  | cons u rest ih =>
    obtain ⟨k, q⟩ := u
    exact ih
      (setQuantity_nonneg hinv (hus (k, q) (List.mem_cons_self _ rest)))
      (fun v hv => hus v (List.mem_cons_of_mem _ hv))

theorem availOf_setQuantity_other (inv : List (String × InvDoc)) (k : String)
    (q : Int) {m : String} (h : m ≠ k) :
    availOf (setQuantity inv k q) m = availOf inv m := by
  simp [availOf, findDoc_setQuantity_other inv k m q h]

/-- Applying the buffered updates of a duplicate-free ingredient list sets
each referenced item's quantity to its snapshot quantity minus that
ingredient's requirement. -/
theorem applyUpdates_map_updateOf (ings : List Ing) :
    ∀ inv : List (String × InvDoc),
      (ings.map Ing.name).Nodup →
      (∀ i ∈ ings, ingredientOk inv i) →
      ∀ ing ∈ ings, ∀ d, findDoc inv ing.name = some d →
        findDoc (applyUpdates inv (ings.map (updateOf inv))) ing.name
          = some { d with quantity := some (getQuantity d - ing.quantity) } := by
  induction ings with
  | nil =>
    intro inv _ _ ing hing
    simp at hing
  | cons a rest ih =>
    intro inv hnd hok ing hing d hd
    have hnda : a.name ∉ rest.map Ing.name := (List.nodup_cons.mp (by simpa using hnd)).1
    have hndr : (rest.map Ing.name).Nodup := (List.nodup_cons.mp (by simpa using hnd)).2
    have happ : applyUpdates inv ((a :: rest).map (updateOf inv))
        = applyUpdates (setQuantity inv a.name (availOf inv a.name - a.quantity))
            (rest.map (updateOf inv)) := by
      simp [applyUpdates, updateOf]
    have hmapeq : rest.map (updateOf inv)
        = rest.map (updateOf (setQuantity inv a.name (availOf inv a.name - a.quantity))) := by
      refine List.map_congr_left ?_
      intro i hi
      have hne : i.name ≠ a.name := by
        intro he
        exact hnda (he ▸ List.mem_map_of_mem Ing.name hi)
      simp [updateOf, availOf_setQuantity_other inv a.name _ hne]
    rcases List.mem_cons.mp hing with heq | hmem
    · subst heq
      have hkeys : ∀ u ∈ rest.map (updateOf inv), u.1 ≠ ing.name := by
        intro u hu
        obtain ⟨i, hi, rfl⟩ := List.mem_map.mp hu
        intro he
        exact hnda (he ▸ List.mem_map_of_mem Ing.name hi)
      rw [happ, applyUpdates_findDoc_of_not_key _ _ _ hkeys,
        findDoc_setQuantity_self _ hd]
      simp [availOf, hd]
    · have hne : ing.name ≠ a.name := by
        intro he
        exact hnda (he ▸ List.mem_map_of_mem Ing.name hmem)
      rw [happ, hmapeq]
      refine ih _ hndr ?_ ing hmem d ?_
      · intro i hi
        obtain ⟨d', hd', hq'⟩ := hok i (List.mem_cons_of_mem a hi)
        have hnei : i.name ≠ a.name := by
          intro he
          exact hnda (he ▸ List.mem_map_of_mem Ing.name hi)
        exact ⟨d', by rw [findDoc_setQuantity_other _ _ _ _ hnei]; exact hd', hq'⟩
      · rw [findDoc_setQuantity_other _ _ _ _ hne]
        exact hd

/-! ## Concrete states used by counterexamples and witnesses -/

/-- The empty store. -/
def stEmpty : St := ⟨[], []⟩

/-- One item, one already-`completed` order consuming it. -/
def stCompleted : St :=
  ⟨[("Arroz", ⟨"Arroz", some 10⟩)],
   [("o1", ⟨"Ceviche", 12, some [⟨"Arroz", 4⟩], "completed"⟩)]⟩

/-- An order whose first ingredient is fine and whose second and third are
both short (Rice needs 5, has 3; Beans needs 7, has 2). -/
def stTwoShort : St :=
  ⟨[("Sal", ⟨"Sal", some 8⟩), ("Rice", ⟨"Rice", some 3⟩), ("Beans", ⟨"Beans", some 2⟩)],
   [("o1", ⟨"Bowl", 5, some [⟨"Sal", 1⟩, ⟨"Rice", 5⟩, ⟨"Beans", 7⟩], "processing"⟩)]⟩

/-- An order listing the same item twice with different quantities. -/
def stDup : St :=
  ⟨[("A", ⟨"A", some 5⟩)],
   [("o1", ⟨"Doble", 7, some [⟨"A", 3⟩, ⟨"A", 1⟩], "processing"⟩)]⟩

/-- Completing the order drives Harina from 12 to 5, below the spec's
threshold of 10. -/
def stLow : St :=
  ⟨[("Harina", ⟨"Harina", some 12⟩)],
   [("o1", ⟨"Pan", 3, some [⟨"Harina", 7⟩], "processing"⟩)]⟩

/-- An exact-boundary order: required quantity equals available stock. -/
def stBoundary : St :=
  ⟨[("Rice", ⟨"Rice", some 5⟩)],
   [("o1", ⟨"Bowl", 5, some [⟨"Rice", 5⟩], "processing"⟩)]⟩

/-- A stored order with no `ingredients` field at all. -/
def stNoIng : St :=
  ⟨[("Arroz", ⟨"Arroz", some 10⟩)],
   [("o1", ⟨"Misterio", 9, none, "processing"⟩)]⟩

/-- Two orders, one completed, one processing. -/
def stTwoOrders : St :=
  ⟨[("Arroz", ⟨"Arroz", some 10⟩)],
   [("o1", ⟨"Ceviche", 12, some [⟨"Arroz", 4⟩], "completed"⟩),
    ("o2", ⟨"Bowl", 5, some [⟨"Arroz", 2⟩], "processing"⟩)]⟩

/-- A single item and nothing else. -/
def stStart : St := ⟨[("Arroz", ⟨"Arroz", some 10⟩)], []⟩

/-- The parametric single-ingredient scenario used for the double-completion
analysis: item `n` with stock `c`, one `processing` order requiring `q` of it. -/
def singleIngSt (n : String) (c : Int) (oid t : String) (p q : Int) : St :=
  ⟨[(n, ⟨n, some c⟩)], [(oid, ⟨t, p, some [⟨n, q⟩], "processing"⟩)]⟩

/-! ## Claim theorems -/

/-- C2: whenever `complete_order` returns failure — order absent, an
ingredient unresolvable, insufficient stock, or a storage error
mid-transaction — the whole state (every inventory quantity and every
order, in particular the order's `processing` status) is exactly as before
the call: all failure paths return before any buffered write, and an
aborted transaction commits nothing. -/
theorem completeOrder_failure_no_mutation (s : St) (orderId : String)
    (storageFailure : Option String)
    (h : (completeOrder s orderId storageFailure).1.1 = false) :
    (completeOrder s orderId storageFailure).2 = s := by
  cases storageFailure with
  | some e => rfl
  | none =>
    show (completeOrderAtomic s orderId).2 = s
    cases hord : findDoc s.orders orderId with
    | none => simp [completeOrderAtomic, hord]
    | some od =>
      cases hcu : computeUpdates s.inventory (od.ingredients.getD []) with
      | error m => simp [completeOrderAtomic, hord, hcu]
      | ok us =>
        have hh : (completeOrder s orderId none).1.1 = true := by
          rw [show completeOrder s orderId none = completeOrderAtomic s orderId from rfl,
            completeOrderAtomic_ok hord hcu]
        rw [h] at hh
        exact absurd hh (by simp)

/-- C2 witness: completing an absent order on the empty store fails and
leaves the store untouched. -/
theorem completeOrder_failure_no_mutation_witness :
    (completeOrder stEmpty "o1" none).1.1 = false ∧
      (completeOrder stEmpty "o1" none).2 = stEmpty :=
  ⟨by decide, completeOrder_failure_no_mutation stEmpty "o1" none (by decide)⟩

/-- C6 (counterexample): `complete_order` returns only a `(success, message)`
pair.  Here a successful completion drives Harina to 5, strictly below the
spec's threshold of 10, yet the returned value is exactly
`(True, "Pedido 'Pan' completado con éxito.")` — the word-for-word
completion message, which never mentions Harina — and no low-stock list of
any kind is part of the result, where the spec demands the warning list
`["Harina"]`. -/
theorem completeOrder_returns_pair_no_warnings_cex :
    (completeOrder stLow "o1" none).1 = (true, "Pedido \x27Pan\x27 completado con éxito.") ∧
    findDoc (completeOrder stLow "o1" none).2.inventory "Harina" = some ⟨"Harina", some 5⟩ ∧
    lowStockWarningsSpec (completeOrder stLow "o1" none).2.inventory = ["Harina"] ∧
    mentions (completeOrder stLow "o1" none).1.2 "Harina" = false := by
  decide

/-- C6 (amended): `complete_order` returns a pair `(success, message)`, not a
triple; on every successful completion the message is the fixed sentence
built from the order's title alone — no low-stock warning list is computed,
and no stock threshold exists anywhere in the code. -/
theorem completeOrder_success_result_only_title (s : St) (oid : String)
    (od : OrderDoc) (hord : findDoc s.orders oid = some od)
    (h : (completeOrder s oid none).1.1 = true) :
    (completeOrder s oid none).1 = (true, successMsg od.title) := by
  cases hcu : computeUpdates s.inventory (od.ingredients.getD []) with
  | error m =>
    rw [show completeOrder s oid none = completeOrderAtomic s oid from rfl,
      completeOrderAtomic_err hord hcu] at h
    exact absurd h (by simp)
  | ok us =>
    rw [show completeOrder s oid none = completeOrderAtomic s oid from rfl,
      completeOrderAtomic_ok hord hcu]

/-- C6 witness for the amended theorem, at the low-stock scenario. -/
theorem completeOrder_success_result_only_title_witness :
    findDoc stLow.orders "o1" = some ⟨"Pan", 3, some [⟨"Harina", 7⟩], "processing"⟩ ∧
    (completeOrder stLow "o1" none).1.1 = true ∧
    (completeOrder stLow "o1" none).1 = (true, successMsg "Pan") :=
  ⟨by decide, by decide,
   completeOrder_success_result_only_title stLow "o1"
     ⟨"Pan", 3, some [⟨"Harina", 7⟩], "processing"⟩ (by decide) (by decide)⟩

/-- C7 (counterexample): `cancel_order` deletes unconditionally.  A
`completed` order is removed rather than retained with an `InvalidState`
failure, and cancelling an absent id is a silent no-op rather than a
`NotFound` failure. -/
theorem cancelOrder_deletes_completed_cex :
    (findDoc stCompleted.orders "o1").map OrderDoc.status = some "completed" ∧
    findDoc (cancelOrder stCompleted "o1").orders "o1" = none ∧
    cancelOrder stEmpty "zzz" = stEmpty := by
  decide

/-- C7 (amended): `cancel_order` deletes the addressed order whatever its
status (including `completed`) and whether or not it exists, touches no other
order, and never touches the inventory; it reports no `NotFound` and no
`InvalidState`. -/
theorem cancelOrder_unconditional_delete (s : St) (orderId otherId : String)
    (hne : otherId ≠ orderId) :
    findDoc (cancelOrder s orderId).orders orderId = none ∧
    findDoc (cancelOrder s orderId).orders otherId = findDoc s.orders otherId ∧
    (cancelOrder s orderId).inventory = s.inventory :=
  ⟨findDoc_removeDoc_self s.orders orderId,
   findDoc_removeDoc_other s.orders orderId otherId hne, rfl⟩

/-- C7 witness: cancelling the completed order `o1` removes it, keeps `o2`,
keeps the inventory. -/
theorem cancelOrder_unconditional_delete_witness :
    ("o2" : String) ≠ "o1" ∧
    (findDoc (cancelOrder stTwoOrders "o1").orders "o1" = none ∧
     findDoc (cancelOrder stTwoOrders "o1").orders "o2" = findDoc stTwoOrders.orders "o2" ∧
     (cancelOrder stTwoOrders "o1").inventory = stTwoOrders.inventory) :=
  ⟨by decide, cancelOrder_unconditional_delete stTwoOrders "o1" "o2" (by decide)⟩

/-- The order value violating every creation-time rule at once: empty title,
non-positive price, empty ingredients list. -/
def badOrder : OrderDoc := ⟨"", 0, some [], "processing"⟩

/-- C8 (counterexample): `create_order` performs no validation.  An order
with an empty title, price 0 and an empty ingredients list is persisted
as-is instead of failing with `InvalidArgument`. -/
theorem createOrder_persists_invalid_cex :
    badOrder.title = "" ∧ badOrder.price ≤ 0 ∧ badOrder.ingredients = some [] ∧
    findDoc (createOrder stEmpty badOrder "o9").orders "o9" = some badOrder := by
  decide

/-- C8 (amended): `create_order` validates nothing itself: it persists any
caller-supplied order record unchanged (only the UI form in `app.py` filters
some invalid input before calling it, and even that form accepts a
whitespace-only title).  The inventory is untouched. -/
theorem createOrder_no_validation (s : St) (orderData : OrderDoc) (newId : String) :
    findDoc (createOrder s orderData newId).orders newId = some orderData ∧
    (createOrder s orderData newId).inventory = s.inventory := by
  exact ⟨by simp [createOrder, findDoc], rfl⟩

/-- C9 (counterexample): saving "Arroz" under id `id1` and then "arroz "
(matching case-insensitively after trimming, as the spec's normalization
confirms) under id `id2` yields two separate records with quantities 5 and 3
— no case-insensitive name lookup and no quantity merge ever happens. -/
theorem save_no_name_merge_cex :
    normalizeNameSpec "Arroz" = normalizeNameSpec "arroz " ∧
    (saveInventoryItem (saveInventoryItem stEmpty ⟨"Arroz", some 5⟩ "id1")
        ⟨"arroz ", some 3⟩ "id2").inventory
      = [("id1", ⟨"Arroz", some 5⟩), ("id2", ⟨"arroz ", some 3⟩)] := by
  decide

/-- C9 (amended): `save_inventory_item` keys records by the caller-supplied
`custom_id` only, never by (normalized) name: saves under two different ids
produce two independent records whatever their names, and a second save
under the same id overwrites the stored record — quantity replaced, not
added. -/
theorem saveInventoryItem_keyed_by_id (s : St) (d1 d2 : InvDoc) (i1 i2 : String)
    (hne : i2 ≠ i1) :
    findDoc (saveInventoryItem (saveInventoryItem s d1 i1) d2 i2).inventory i1 = some d1 ∧
    findDoc (saveInventoryItem (saveInventoryItem s d1 i1) d2 i2).inventory i2 = some d2 ∧
    findDoc (saveInventoryItem (saveInventoryItem s d1 i1) d2 i1).inventory i1 = some d2 := by
  refine ⟨?_, ?_, ?_⟩
  · show findDoc (setDoc (setDoc s.inventory i1 d1) i2 d2) i1 = some d1
    rw [findDoc_setDoc_other _ _ _ _ (Ne.symm hne), findDoc_setDoc_self]
  · exact findDoc_setDoc_self _ _ _
  · exact findDoc_setDoc_self _ _ _

/-- C9 witness: the two-save scenario of the counterexample, through the
amended theorem. -/
theorem saveInventoryItem_keyed_by_id_witness :
    ("id2" : String) ≠ "id1" ∧
    (findDoc (saveInventoryItem (saveInventoryItem stEmpty ⟨"Arroz", some 5⟩ "id1")
        ⟨"arroz ", some 3⟩ "id2").inventory "id1" = some ⟨"Arroz", some 5⟩ ∧
     findDoc (saveInventoryItem (saveInventoryItem stEmpty ⟨"Arroz", some 5⟩ "id1")
        ⟨"arroz ", some 3⟩ "id2").inventory "id2" = some ⟨"arroz ", some 3⟩ ∧
     findDoc (saveInventoryItem (saveInventoryItem stEmpty ⟨"Arroz", some 5⟩ "id1")
        ⟨"arroz ", some 3⟩ "id1").inventory "id1" = some ⟨"arroz ", some 3⟩) :=
  ⟨by decide,
   saveInventoryItem_keyed_by_id stEmpty ⟨"Arroz", some 5⟩ ⟨"arroz ", some 3⟩
     "id1" "id2" (by decide)⟩

/-- C10: a stored order whose `ingredients` field is missing or empty is
completed successfully: the loop body never runs, so no stock is checked and
no inventory quantity changes, the order's status flips to `completed`, and
the plain success message is returned. -/
theorem completeOrder_empty_ingredients_succeeds (s : St) (oid : String)
    (od : OrderDoc) (hord : findDoc s.orders oid = some od)
    (hings : od.ingredients.getD [] = []) :
    (completeOrder s oid none).1 = (true, successMsg od.title) ∧
    (completeOrder s oid none).2.inventory = s.inventory ∧
    findDoc (completeOrder s oid none).2.orders oid
      = some { od with status := "completed" } := by
  have hcu : computeUpdates s.inventory (od.ingredients.getD []) = Except.ok [] := by
    rw [hings]
    rfl
  rw [show completeOrder s oid none = completeOrderAtomic s oid from rfl,
    completeOrderAtomic_ok hord hcu]
  exact ⟨rfl, rfl, findDoc_setStatusCompleted_self hord⟩

/-- C10 witness: the order `Misterio` has no `ingredients` field at all;
completing it succeeds, mutates no stock, and flips the status. -/
theorem completeOrder_empty_ingredients_succeeds_witness :
    findDoc stNoIng.orders "o1" = some ⟨"Misterio", 9, none, "processing"⟩ ∧
    ((OrderDoc.mk "Misterio" 9 none "processing").ingredients.getD [] = ([] : List Ing)) ∧
    ((completeOrder stNoIng "o1" none).1 = (true, successMsg "Misterio") ∧
     (completeOrder stNoIng "o1" none).2.inventory = stNoIng.inventory ∧
     findDoc (completeOrder stNoIng "o1" none).2.orders "o1"
       = some ⟨"Misterio", 9, none, "completed"⟩) :=
  ⟨by decide, by decide,
   completeOrder_empty_ingredients_succeeds stNoIng "o1"
     ⟨"Misterio", 9, none, "processing"⟩ (by decide) rfl⟩

/-- C1 (counterexample): `_complete_order_atomic` never reads the order's
status, so completing the already-`completed` order `o1` is not the claimed
no-op: it reports success with the ordinary completion message (not an
"already completed" one) and decrements Arroz from 10 to 6 again; run twice
from `processing`, the stock drops 10 → 6 → 2, a double deduction. -/
theorem completeOrder_already_completed_mutates_cex :
    (findDoc stCompleted.orders "o1").map OrderDoc.status = some "completed" ∧
    (completeOrder stCompleted "o1" none).1 = (true, successMsg "Ceviche") ∧
    findDoc (completeOrder stCompleted "o1" none).2.inventory "Arroz"
      = some ⟨"Arroz", some 6⟩ ∧
    (completeOrder stCompleted "o1" none).2 ≠ stCompleted ∧
    findDoc (completeOrder
        (completeOrder (singleIngSt "Arroz" 10 "o1" "Ceviche" 12 4) "o1" none).2
        "o1" none).2.inventory "Arroz" = some ⟨"Arroz", some 2⟩ := by
  decide

/-- C1 (amended): `complete_order` is not idempotent — it ignores the order's
status entirely.  For a single-ingredient order with enough stock for two
rounds, the first call succeeds and flips the status to `completed`, and a
second call on the now-completed order succeeds again and decrements the
same stock a second time (`c - q - q`). -/
theorem completeOrder_ignores_status_double_decrement
    (oid t n : String) (p c q : Int) (hq : 0 ≤ q) (h2 : 2 * q ≤ c) :
    (completeOrder (singleIngSt n c oid t p q) oid none).1.1 = true ∧
    findDoc (completeOrder (singleIngSt n c oid t p q) oid none).2.orders oid
      = some ⟨t, p, some [⟨n, q⟩], "completed"⟩ ∧
    findDoc (completeOrder (singleIngSt n c oid t p q) oid none).2.inventory n
      = some ⟨n, some (c - q)⟩ ∧
    (completeOrder (completeOrder (singleIngSt n c oid t p q) oid none).2
        oid none).1.1 = true ∧
    findDoc (completeOrder (completeOrder (singleIngSt n c oid t p q) oid none).2
        oid none).2.inventory n = some ⟨n, some (c - q - q)⟩ := by
  have hlt1 : ¬ c < q := by omega
  have hlt2 : ¬ c - q < q := by omega
  simp [completeOrder, completeOrderAtomic, singleIngSt, computeUpdates, findDoc,
    getQuantity, applyUpdates, setQuantity, setStatusCompleted, hlt1, hlt2]

/-- C1 witness: Arroz 10, requirement 4 — two calls end at 2, not 6. -/
theorem completeOrder_ignores_status_double_decrement_witness :
    (0 : Int) ≤ 4 ∧ 2 * 4 ≤ (10 : Int) ∧
    ((completeOrder (singleIngSt "Arroz" 10 "o1" "Ceviche" 12 4) "o1" none).1.1 = true ∧
     findDoc (completeOrder (singleIngSt "Arroz" 10 "o1" "Ceviche" 12 4) "o1" none).2.orders "o1"
       = some ⟨"Ceviche", 12, some [⟨"Arroz", 4⟩], "completed"⟩ ∧
     findDoc (completeOrder (singleIngSt "Arroz" 10 "o1" "Ceviche" 12 4) "o1" none).2.inventory "Arroz"
       = some ⟨"Arroz", some (10 - 4)⟩ ∧
     (completeOrder (completeOrder (singleIngSt "Arroz" 10 "o1" "Ceviche" 12 4) "o1" none).2
         "o1" none).1.1 = true ∧
     findDoc (completeOrder (completeOrder (singleIngSt "Arroz" 10 "o1" "Ceviche" 12 4) "o1" none).2
         "o1" none).2.inventory "Arroz" = some ⟨"Arroz", some (10 - 4 - 4)⟩) :=
  ⟨by decide, by decide,
   completeOrder_ignores_status_double_decrement "o1" "Ceviche" "Arroz" 12 10 4
     (by decide) (by decide)⟩

/-- A well-supplied prefix lets the checking loop pass through: prepending
ingredients that all resolve with enough stock does not change an error
produced further down the list. -/
theorem computeUpdates_append_error {inv : List (String × InvDoc)}
    {pre l : List Ing} {m : String}
    (hpre : ∀ i ∈ pre, ingredientOk inv i)
    (hl : computeUpdates inv l = Except.error m) :
    computeUpdates inv (pre ++ l) = Except.error m := by
  induction pre with
  | nil => simpa using hl
  | cons a rest ih =>
    obtain ⟨d, hd, hq⟩ := hpre a (List.mem_cons_self a rest)
    have hnotlt : ¬ getQuantity d < a.quantity := not_lt.mpr hq
    have hrest := ih (fun i hi => hpre i (List.mem_cons_of_mem a hi))
    simp [computeUpdates, hd, hnotlt, hrest]

/-- C3 (counterexample): the order `Bowl` is short on both Rice (needs 5,
has 3) and Beans (needs 7, has 2), yet the failure message names only Rice,
the first short ingredient, and never mentions Beans. -/
theorem insufficient_reports_only_first_cex :
    findDoc stTwoShort.inventory "Rice" = some ⟨"Rice", some 3⟩ ∧
    findDoc stTwoShort.inventory "Beans" = some ⟨"Beans", some 2⟩ ∧
    (completeOrder stTwoShort "o1" none).1
      = (false, "Stock insuficiente para \x27Rice\x27. Necesitas 5, tienes 3.") ∧
    mentions (completeOrder stTwoShort "o1" none).1.2 "Beans" = false := by
  decide

/-- C3 (amended): on insufficient stock the failure reports exactly the
first short ingredient encountered, with its name, required and available
quantities — later shortfalls are silently dropped — and nothing is
mutated. -/
theorem insufficient_first_short_reported (s : St) (oid : String)
    (od : OrderDoc) (pre rest : List Ing) (ing : Ing) (d : InvDoc)
    (hord : findDoc s.orders oid = some od)
    (hings : od.ingredients.getD [] = pre ++ ing :: rest)
    (hpre : ∀ i ∈ pre, ingredientOk s.inventory i)
    (hd : findDoc s.inventory ing.name = some d)
    (hshort : getQuantity d < ing.quantity) :
    completeOrder s oid none
      = ((false, insufficientMsg ing.name ing.quantity (getQuantity d)), s) := by
  have hhead : computeUpdates s.inventory (ing :: rest)
      = Except.error (insufficientMsg ing.name ing.quantity (getQuantity d)) := by
    simp [computeUpdates, hd, hshort]
  have hcu : computeUpdates s.inventory (od.ingredients.getD [])
      = Except.error (insufficientMsg ing.name ing.quantity (getQuantity d)) := by
    rw [hings]
    exact computeUpdates_append_error hpre hhead
  rw [show completeOrder s oid none = completeOrderAtomic s oid from rfl,
    completeOrderAtomic_err hord hcu]

/-- C3 witness: `Bowl` at `stTwoShort` — Sal is a sufficient prefix, Rice is
the first short ingredient, Beans a later one; only Rice is reported and the
state is unchanged. -/
theorem insufficient_first_short_reported_witness :
    findDoc stTwoShort.orders "o1"
      = some ⟨"Bowl", 5, some [⟨"Sal", 1⟩, ⟨"Rice", 5⟩, ⟨"Beans", 7⟩], "processing"⟩ ∧
    findDoc stTwoShort.inventory "Rice" = some ⟨"Rice", some 3⟩ ∧
    getQuantity ⟨"Rice", some 3⟩ < 5 ∧
    completeOrder stTwoShort "o1" none
      = ((false, insufficientMsg "Rice" 5 (getQuantity ⟨"Rice", some 3⟩)), stTwoShort) :=
  ⟨by decide, by decide, by decide,
   insufficient_first_short_reported stTwoShort "o1"
     ⟨"Bowl", 5, some [⟨"Sal", 1⟩, ⟨"Rice", 5⟩, ⟨"Beans", 7⟩], "processing"⟩
     [⟨"Sal", 1⟩] [⟨"Beans", 7⟩] ⟨"Rice", 5⟩ ⟨"Rice", some 3⟩
     (by decide) (by decide)
     (by
       intro i hi
       simp at hi
       subst hi
       exact ⟨⟨"Sal", some 8⟩, by decide, by decide⟩)
     (by decide) (by decide)⟩

/-- C4 (counterexample): the order `Doble` lists item A twice (needs 3, then
needs 1; 5 available, so both per-ingredient availability checks pass), yet
after successful completion A holds 4 = 5 - 1 — the last buffered write wins
— and not 5 - 3 as the claimed per-ingredient postcondition requires. -/
theorem duplicate_ingredient_last_write_wins_cex :
    (completeOrder stDup "o1" none).1.1 = true ∧
    ingredientOk stDup.inventory ⟨"A", 3⟩ ∧
    ingredientOk stDup.inventory ⟨"A", 1⟩ ∧
    findDoc (completeOrder stDup "o1" none).2.inventory "A" = some ⟨"A", some 4⟩ ∧
    (4 : Int) ≠ 5 - 3 := by
  refine ⟨by decide, ⟨⟨"A", some 5⟩, by decide, by decide⟩,
    ⟨⟨"A", some 5⟩, by decide, by decide⟩, by decide, by decide⟩

/-- C4 (amended): for a stored order whose ingredient names are pairwise
distinct (any order the UI's per-row item selector would build once the same
item is not picked twice) and all resolvable with enough stock — including
the boundary where available equals required — `complete_order` succeeds,
sets each referenced item's quantity to `available - required`, leaves every
other item untouched, and flips the order's status to `completed`. -/
theorem completeOrder_success_postcondition (s : St) (oid : String)
    (od : OrderDoc)
    (hord : findDoc s.orders oid = some od)
    (hnd : ((od.ingredients.getD []).map Ing.name).Nodup)
    (hok : ∀ i ∈ od.ingredients.getD [], ingredientOk s.inventory i) :
    (completeOrder s oid none).1 = (true, successMsg od.title) ∧
    findDoc (completeOrder s oid none).2.orders oid
      = some { od with status := "completed" } ∧
    (∀ ing ∈ od.ingredients.getD [], ∀ d, findDoc s.inventory ing.name = some d →
      findDoc (completeOrder s oid none).2.inventory ing.name
        = some { d with quantity := some (getQuantity d - ing.quantity) }) ∧
    (∀ n, (∀ ing ∈ od.ingredients.getD [], ing.name ≠ n) →
      findDoc (completeOrder s oid none).2.inventory n = findDoc s.inventory n) := by
  have hcu := computeUpdates_ok s.inventory _ hok
  rw [show completeOrder s oid none = completeOrderAtomic s oid from rfl,
    completeOrderAtomic_ok hord hcu]
  refine ⟨rfl, findDoc_setStatusCompleted_self hord, ?_, ?_⟩
  · intro ing hing d hd
    exact applyUpdates_map_updateOf _ s.inventory hnd hok ing hing d hd
  · intro n hn
    apply applyUpdates_findDoc_of_not_key
    intro u hu
    obtain ⟨i, hi, rfl⟩ := List.mem_map.mp hu
    exact hn i hi

/-- C4 witness: the exact-boundary order (`Rice`: needs 5, has 5) succeeds
and leaves Rice at 0, status `completed`. -/
theorem completeOrder_success_postcondition_witness :
    (completeOrder stBoundary "o1" none).1 = (true, successMsg "Bowl") ∧
    findDoc (completeOrder stBoundary "o1" none).2.orders "o1"
      = some ⟨"Bowl", 5, some [⟨"Rice", 5⟩], "completed"⟩ ∧
    findDoc (completeOrder stBoundary "o1" none).2.inventory "Rice"
      = some ⟨"Rice", some (getQuantity ⟨"Rice", some 5⟩ - 5)⟩ := by
  obtain ⟨h1, h2, h3, _⟩ :=
    completeOrder_success_postcondition stBoundary "o1"
      ⟨"Bowl", 5, some [⟨"Rice", 5⟩], "processing"⟩ (by decide) (by decide)
      (by
        intro i hi
        simp at hi
        subst hi
        exact ⟨⟨"Rice", some 5⟩, by decide, by decide⟩)
  exact ⟨h1, h2, h3 ⟨"Rice", 5⟩ (by decide) ⟨"Rice", some 5⟩ (by decide)⟩

/-- C5 (counterexample): starting from a state where every quantity is
non-negative, one legal `save_inventory_item` call — which validates nothing
— stores quantity -1, so the "quantity ≥ 0 in every reachable state, no
operation can drive it negative" invariant fails for the code's operations
as exposed. -/
theorem save_negative_quantity_reachable_cex :
    InvNonneg stStart ∧
    Step stStart (saveInventoryItem stStart ⟨"X", some (-1)⟩ "x") ∧
    findDoc (saveInventoryItem stStart ⟨"X", some (-1)⟩ "x").inventory "x"
      = some ⟨"X", some (-1)⟩ ∧
    getQuantity ⟨"X", some (-1)⟩ < 0 :=
  ⟨by decide, Step.save stStart ⟨"X", some (-1)⟩ "x", by decide, by decide⟩

/-- Any single checked operation preserves non-negativity of every inventory
quantity; `complete_order` does so because every buffered write is
`current - required` guarded by `current < required` → abort. -/
theorem stepChecked_preserves_nonneg {s s' : St} (h : StepChecked s s')
    (hs : InvNonneg s) : InvNonneg s' := by
  cases h with
  | save data customId hq =>
    intro p hp
    rcases mem_setDoc hp with hmem | hval
    · exact hs p hmem
    · rw [hval]
      exact hq
  | deleteItem docId =>
    intro p hp
    exact hs p (mem_removeDoc hp)
  | create orderData newId =>
    intro p hp
    exact hs p hp
  | cancel orderId =>
    intro p hp
    exact hs p hp
  | complete orderId storageFailure =>
    cases storageFailure with
    | some e => exact hs
    | none =>
      show InvNonneg (completeOrderAtomic s orderId).2
      cases hord : findDoc s.orders orderId with
      | none =>
        have : (completeOrderAtomic s orderId).2 = s := by
          simp [completeOrderAtomic, hord]
        rw [this]
        exact hs
      | some od =>
        cases hcu : computeUpdates s.inventory (od.ingredients.getD []) with
        | error m =>
          have : (completeOrderAtomic s orderId).2 = s := by
            simp [completeOrderAtomic, hord, hcu]
          rw [this]
          exact hs
        | ok us =>
          intro p hp
          rw [completeOrderAtomic_ok hord hcu] at hp
          exact applyUpdates_nonneg hs (computeUpdates_nonneg hcu) p hp

/-- C5 (amended): the quantity ≥ 0 invariant does hold in every state
reachable by the operations provided every `save_inventory_item` call
carries a non-negative quantity (the discipline `app.py`'s forms enforce
with `min_value=0` / `min_value=1`); the core itself performs that check
nowhere, so the unrestricted operation can break the invariant (see the
counterexample). -/
theorem nonneg_invariant_of_checked_steps {s s' : St}
    (h : Relation.ReflTransGen StepChecked s s') (hs : InvNonneg s) :
    InvNonneg s' := by
  induction h with
  | refl => exact hs
  | tail _ hstep ih => exact stepChecked_preserves_nonneg hstep ih

/-- C5 witness: one checked save of quantity 3 from a non-negative state
keeps the invariant. -/
theorem nonneg_invariant_of_checked_steps_witness :
    InvNonneg stStart ∧ InvNonneg (saveInventoryItem stStart ⟨"Sal", some 3⟩ "Sal") :=
  ⟨by decide,
   nonneg_invariant_of_checked_steps
     (Relation.ReflTransGen.single
       (StepChecked.save stStart ⟨"Sal", some 3⟩ "Sal" (by decide)))
     (by decide)⟩

end Inventario
